import Mathlib

/-!
Shallow embedding of the browser-engine-suburi rendering core
(src/css.rs, src/dom.rs, src/style.rs, src/layout.rs) and proofs about it.

Rust `f32` geometry values are modelled as exact rationals (`ℚ`); the
algorithms under verification are branch-and-arithmetic only, so no claim
hinges on rounding.  Rust `HashMap`s are modelled as association lists whose
`insert` conses at the head and whose `get` takes the first hit, which
realises exactly the overwrite-on-insert observable behaviour.  Rust `panic!`
is modelled by `Option`.
-/

/- ===================== css.rs : data model ===================== -/

/-- Mirrors `css.rs` `enum Unit { Px }`. -/
inductive CssUnit where
  | Px
deriving DecidableEq, Repr

/-- Mirrors `css.rs` `struct Color { r, g, b, a: u8 }` (bytes as `ℕ`). -/
structure Color where
  r : ℕ
  g : ℕ
  b : ℕ
  a : ℕ
deriving DecidableEq, Repr

/-- Mirrors `css.rs` `enum Value { Keyword(String), Length(f32, Unit), ColorValue(Color) }`. -/
inductive Value where
  | Keyword (s : String)
  | Length (f : ℚ) (u : CssUnit)
  | ColorValue (c : Color)
deriving DecidableEq, Repr

/-- Mirrors `css.rs` `struct Declaration { name, value }`. -/
structure Declaration where
  name : String
  value : Value
deriving DecidableEq, Repr

/-- Mirrors `css.rs` `struct SimpleSelector { tag_name, id, class }`
(the Rust field `class` is spelled `cls` because `class` is a Lean keyword). -/
structure SimpleSelector where
  tag_name : Option String
  id : Option String
  cls : List String
deriving DecidableEq, Repr

/-- Mirrors `css.rs` `enum Selector { Simple(SimpleSelector) }`. -/
inductive Selector where
  | Simple (s : SimpleSelector)
deriving DecidableEq, Repr

/-- Mirrors `css.rs` `struct Rule { selectors, declarations }`. -/
structure Rule where
  selectors : List Selector
  declarations : List Declaration
deriving DecidableEq, Repr

/-- Mirrors `css.rs` `struct StyleSheet { rules }`. -/
structure StyleSheet where
  rules : List Rule
deriving DecidableEq, Repr

/-- Mirrors `css.rs` `pub type Specificity = (usize, usize, usize)`. -/
def Specificity := ℕ × ℕ × ℕ
deriving DecidableEq, Repr

/-- Mirrors `css.rs` `Selector::specificity`: counts of id, class, tag_name
(`Option::iter().count()` is 0 or 1, realised via `Option.toList`). -/
def Selector.specificity : Selector → Specificity
  | .Simple simple => (simple.id.toList.length, simple.cls.length, simple.tag_name.toList.length)

/- ===================== dom.rs ===================== -/

/-- Mirrors `dom.rs` `pub type AttrMap = HashMap<String, String>` as an
association list; lookup takes the first hit. -/
def AttrMap := List (String × String)

/-- Association-list model of `HashMap::get`. -/
def AttrMap.get (m : AttrMap) (k : String) : Option String :=
  (List.find? (fun kv => kv.1 == k) m).map (fun kv => kv.2)

/-- Mirrors `dom.rs` `struct ElementData { tag_name, attributes }`. -/
structure ElementData where
  tag_name : String
  attributes : AttrMap

/-- Mirrors `dom.rs` `enum NodeType { Text(String), Element(ElementData) }`. -/
inductive NodeType where
  | Text (s : String)
  | Element (e : ElementData)

/-- Mirrors `dom.rs` `struct Node { children, node_type }`. -/
inductive Node where
  | mk (children : List Node) (node_type : NodeType)

/-- Mirrors `dom.rs` `ElementData::id`: `self.attributes.get("id")`. -/
def ElementData.id (e : ElementData) : Option String :=
  e.attributes.get "id"

/-- Executable model of Rust `str::split(sep)` over the character list: the
result always has one more group than there are separator characters, so
consecutive separators yield empty groups, exactly as in Rust. -/
def splitChars (p : Char → Bool) : List Char → List (List Char)
  | [] => [[]]
  | c :: cs =>
    let r := splitChars p cs
    if p c then [] :: r
    else
      match r with
      | [] => [[c]]
      | g :: gs => (c :: g) :: gs

/-- Mirrors `dom.rs` `ElementData::classes`: splits the `class` attribute on
the single space character `' '` (Rust `classList.split(' ').collect()`);
membership in the resulting `HashSet` is list membership here. -/
def ElementData.classes (e : ElementData) : List String :=
  match e.attributes.get "class" with
  | some classList => (splitChars (fun c => c == ' ') classList.data).map (fun g => String.mk g)
  | none => []

/- ===================== style.rs : selector matching ===================== -/

/-- Mirrors `style.rs` `matches_simple_selector`: the three early-return
`any` checks on tag name, id and classes, then `true`. -/
def matches_simple_selector (elem : ElementData) (selector : SimpleSelector) : Bool :=
  if selector.tag_name.toList.any (fun name => elem.tag_name != name) then false
  else if selector.id.toList.any (fun i => elem.id != some i) then false
  else if selector.cls.any (fun c => !(elem.classes.contains c)) then false
  else true

/-- Mirrors `style.rs` `matches` (named `matchesSelector` here because
`matches` is a Lean keyword). -/
def matchesSelector (elem : ElementData) : Selector → Bool
  | .Simple simple => matches_simple_selector elem simple

/-- Mirrors `style.rs` `type MatchedRule<'a> = (Specificity, &'a Rule)`. -/
def MatchedRule := Specificity × Rule

instance : DecidableEq MatchedRule :=
  inferInstanceAs (DecidableEq (Specificity × Rule))

/-- Mirrors `style.rs` `match_rule`: first matching selector of the rule, in
selector-list order, paired with its specificity. -/
def match_rule (elem : ElementData) (rule : Rule) : Option MatchedRule :=
  (rule.selectors.find? (fun selector => matchesSelector elem selector)).map
    (fun selector => (selector.specificity, rule))

/-- Mirrors `style.rs` `matching_rules`: `filter_map` over the stylesheet's
rules, preserving stylesheet order. -/
def matching_rules (elem : ElementData) (stylesheet : StyleSheet) : List MatchedRule :=
  stylesheet.rules.filterMap (match_rule elem)

/- ===================== style.rs : the cascade ===================== -/

/-- Boolean lexicographic order on `Specificity`; this is Rust's derived
`Ord::cmp` on `(usize, usize, usize)` read as `cmp != Greater`. -/
def specLe (a b : Specificity) : Bool :=
  decide (a.1 < b.1 ∨ (a.1 = b.1 ∧ (a.2.1 < b.2.1 ∨ (a.2.1 = b.2.1 ∧ a.2.2 ≤ b.2.2))))

/-- Strict lexicographic order on `Specificity` (Rust `cmp == Less`). -/
def specLt (a b : Specificity) : Bool :=
  decide (a.1 < b.1 ∨ (a.1 = b.1 ∧ (a.2.1 < b.2.1 ∨ (a.2.1 = b.2.1 ∧ a.2.2 < b.2.2))))

/-- One insertion step of a stable insertion sort on the specificity key:
the new element goes in front of the first element it is `specLe`-below,
hence in front of later-arriving equal keys and behind earlier equal keys. -/
def insertBySpec (x : MatchedRule) : List MatchedRule → List MatchedRule
  | [] => [x]
  | y :: ys => if specLe x.1 y.1 then x :: y :: ys else y :: insertBySpec x ys

/-- Stable ascending sort on the specificity key, modelling Rust's stable
`slice::sort_by(|&(a, _), &(b, _)| a.cmp(&b))` in `specified_values`. -/
def sortBySpec : List MatchedRule → List MatchedRule
  | [] => []
  | x :: xs => insertBySpec x (sortBySpec xs)

/-- Mirrors `style.rs` `type PropertyMap = HashMap<String, Value>` as an
association list; `insert` conses at the head, `get` takes the first hit. -/
def PropertyMap := List (String × Value)

/-- Association-list model of `HashMap::get`. -/
def PropertyMap.get (m : PropertyMap) (k : String) : Option Value :=
  (List.find? (fun kv => kv.1 == k) m).map (fun kv => kv.2)

/-- Association-list model of `HashMap::insert` (overwrites on lookup). -/
def PropertyMap.insert (m : PropertyMap) (k : String) (v : Value) : PropertyMap :=
  (k, v) :: m

/-- Mirrors `style.rs` `specified_values`: collect matching rules, stable-sort
ascending by specificity, then insert every declaration in order. -/
def specified_values (elem : ElementData) (stylesheet : StyleSheet) : PropertyMap :=
  let rules := matching_rules elem stylesheet
  let sorted := sortBySpec rules
  sorted.foldl
    (fun values sr =>
      sr.2.declarations.foldl (fun m d => m.insert d.name d.value) values)
    []

/- ===================== style.rs : styled tree ===================== -/

/-- Mirrors `style.rs` `struct StyledNode { node, specified_values, children }`
(as an inductive because Lean structures cannot be recursive). -/
inductive StyledNode where
  | mk (node : Node) (specified_values : PropertyMap) (children : List StyledNode)

/-- Field accessor for `StyledNode.node`. -/
def StyledNode.node : StyledNode → Node
  | .mk n _ _ => n

/-- Field accessor for `StyledNode.specified_values`. -/
def StyledNode.specified_values : StyledNode → PropertyMap
  | .mk _ m _ => m

/-- Field accessor for `StyledNode.children`. -/
def StyledNode.children : StyledNode → List StyledNode
  | .mk _ _ cs => cs

/-- Modelled from the spec: `StyledNode::value` is called by `layout.rs` but
its definition is absent from `src/style.rs`; per the spec it returns the
resolved value of the named property from the node's map, if present. -/
def StyledNode.value (s : StyledNode) (name : String) : Option Value :=
  s.specified_values.get name

/-- Modelled from the spec: `StyledNode::lookup` is called by `layout.rs` but
its definition is absent from `src/style.rs`; per spec §4.6/§9 it is the
longhand-with-shorthand-fallback-with-default chain. -/
def StyledNode.lookup (s : StyledNode) (name fallback_name : String) (default : Value) : Value :=
  (s.value name).getD ((s.value fallback_name).getD default)

/-- Mirrors the `Display` enum imported by `layout.rs` from `style`
(definition absent from `src/style.rs`; variants per spec §4.4). -/
inductive Display where
  | Inline
  | Block
  | DisplayNone
deriving DecidableEq, Repr

/-- Modelled from the spec (§4.4 Display Classifier): `StyledNode::display` is
called by `layout.rs` but absent from `src/style.rs`; it reads the resolved
`display` keyword, mapping "block" to Block, "none" to DisplayNone, and
anything else — including an absent property — to Inline. -/
def StyledNode.display (s : StyledNode) : Display :=
  match s.value "display" with
  | some (.Keyword kw) =>
    if kw == "block" then .Block
    else if kw == "none" then .DisplayNone
    else .Inline
  | _ => .Inline

/-- Modelled from the spec: `Value::to_px` is called by `layout.rs` but absent
from `src/css.rs`; per spec §4.6 it is the pixel value of a `Px` length and 0
for every other value (in particular the keyword `auto` counts as 0). -/
def Value.to_px : Value → ℚ
  | .Length f .Px => f
  | _ => 0

/- ===================== layout.rs : geometry ===================== -/

/-- Mirrors `layout.rs` `struct Rect { x, y, width, height: f32 }`. -/
structure Rect where
  x : ℚ
  y : ℚ
  width : ℚ
  height : ℚ
deriving DecidableEq, Repr

/-- Mirrors `layout.rs` `struct EdgeSizes { left, right, top, bottom: f32 }`. -/
structure EdgeSizes where
  left : ℚ
  right : ℚ
  top : ℚ
  bottom : ℚ
deriving DecidableEq, Repr

/-- Mirrors `layout.rs` `struct Dimensions { content, padding, border, margin }`. -/
structure Dimensions where
  content : Rect
  padding : EdgeSizes
  border : EdgeSizes
  margin : EdgeSizes
deriving DecidableEq, Repr

/-- The all-zero `Rect`, as produced by Rust's derived `Default`. -/
def Rect.default : Rect := ⟨0, 0, 0, 0⟩

/-- The all-zero `EdgeSizes`, as produced by Rust's derived `Default`. -/
def EdgeSizes.default : EdgeSizes := ⟨0, 0, 0, 0⟩

/-- The all-zero `Dimensions`, as produced by Rust's derived `Default`. -/
def Dimensions.default : Dimensions :=
  ⟨Rect.default, EdgeSizes.default, EdgeSizes.default, EdgeSizes.default⟩

/-- Mirrors `layout.rs` `Rect::expanded_by`. -/
def Rect.expanded_by (self : Rect) (edge : EdgeSizes) : Rect :=
  { x := self.x - edge.left
    y := self.y - edge.top
    width := self.width + edge.left + edge.right
    height := self.height + edge.top + edge.bottom }

/-- Mirrors `layout.rs` `Dimensions::padding_box`. -/
def Dimensions.padding_box (self : Dimensions) : Rect :=
  self.content.expanded_by self.padding

/-- Mirrors `layout.rs` `Dimensions::border_box`. -/
def Dimensions.border_box (self : Dimensions) : Rect :=
  self.padding_box.expanded_by self.border

/-- Mirrors `layout.rs` `Dimensions::margin_box`. -/
def Dimensions.margin_box (self : Dimensions) : Rect :=
  self.border_box.expanded_by self.margin

/-- Mirrors the `sum` helper at the bottom of `layout.rs`:
`iter.fold(0., |a, b| a + b)`. -/
def sumPx (l : List ℚ) : ℚ := l.foldl (fun a b => a + b) 0

/- ===================== layout.rs : layout boxes ===================== -/

/-- Mirrors `layout.rs` `enum BoxType { BlockNode, InlineNode, AnonymousBlock }`. -/
inductive BoxType where
  | BlockNode (node : StyledNode)
  | InlineNode (node : StyledNode)
  | AnonymousBlock

/-- Discriminator for the `AnonymousBlock` variant. -/
def BoxType.isAnon : BoxType → Bool
  | .AnonymousBlock => true
  | _ => false

/-- Mirrors `layout.rs` `struct LayoutBox { dimensions, box_type, children }`
(as an inductive because Lean structures cannot be recursive). -/
inductive LayoutBox where
  | mk (dimensions : Dimensions) (box_type : BoxType) (children : List LayoutBox)

/-- Field accessor for `LayoutBox.dimensions`. -/
def LayoutBox.dimensions : LayoutBox → Dimensions
  | .mk d _ _ => d

/-- Field accessor for `LayoutBox.box_type`. -/
def LayoutBox.box_type : LayoutBox → BoxType
  | .mk _ bt _ => bt

/-- Field accessor for `LayoutBox.children`. -/
def LayoutBox.children : LayoutBox → List LayoutBox
  | .mk _ _ cs => cs

/-- Mirrors `layout.rs` `LayoutBox::new`: default dimensions, no children. -/
def LayoutBox.new (box_type : BoxType) : LayoutBox :=
  .mk Dimensions.default box_type []

/-- Mirrors `layout.rs` `LayoutBox::get_style_node`; the `panic!` on an
anonymous block is modelled as `none`. -/
def LayoutBox.get_style_node : LayoutBox → Option StyledNode
  | b =>
    match b.box_type with
    | .BlockNode node => some node
    | .InlineNode node => some node
    | .AnonymousBlock => none

/-- Models `self.children.push(b)` on a layout box. -/
def LayoutBox.pushChild : LayoutBox → LayoutBox → LayoutBox
  | .mk d bt cs, b => .mk d bt (cs ++ [b])

/-- Models the `BlockNode` arm of `layout.rs` `get_inline_container` followed
by the push: walk to the last child; if it is an `AnonymousBlock`, push `b`
into it, otherwise append a fresh `AnonymousBlock` containing `b`. -/
def addInline (b : LayoutBox) : List LayoutBox → List LayoutBox
  | [] => [(LayoutBox.new .AnonymousBlock).pushChild b]
  | x :: rest =>
    match rest with
    | [] =>
      if x.box_type.isAnon then [x.pushChild b]
      else [x, (LayoutBox.new .AnonymousBlock).pushChild b]
    | _ :: _ => x :: addInline b rest

/-- Models `root.get_inline_container().children.push(b)` from `layout.rs`
`build_layout_tree`: on an `InlineNode` or `AnonymousBlock`,
`get_inline_container` returns the box itself, so the child is appended
directly; on a `BlockNode` the last-anonymous-child logic of `addInline`
applies. -/
def LayoutBox.pushInline (root : LayoutBox) (b : LayoutBox) : LayoutBox :=
  match root.box_type with
  | .InlineNode _ => root.pushChild b
  | .AnonymousBlock => root.pushChild b
  | .BlockNode _ => .mk root.dimensions root.box_type (addInline b root.children)

/- ===================== layout.rs : build_layout_tree ===================== -/

mutual

/-- Mirrors `layout.rs` `build_layout_tree`; the
`panic!("Root node has display: none.")` is modelled as `none`. -/
def build_layout_tree (style_node : StyledNode) : Option LayoutBox :=
  match style_node.display with
  | .Block => some (buildChildren (LayoutBox.new (.BlockNode style_node)) style_node.children)
  | .Inline => some (buildChildren (LayoutBox.new (.InlineNode style_node)) style_node.children)
  | .DisplayNone => none
termination_by sizeOf style_node
decreasing_by
  all_goals cases style_node with
  | mk n m cs => simp [StyledNode.children]; try omega

/-- Mirrors the `for child in &style_node.children` loop of
`build_layout_tree`: Block children are pushed directly, Inline children go
through the inline container, DisplayNone children are dropped.  The inner
`none` fallbacks are unreachable because the recursion is only entered for
children whose display is Block or Inline. -/
def buildChildren (root : LayoutBox) : List StyledNode → LayoutBox
  | [] => root
  | child :: rest =>
    let root' :=
      match child.display with
      | .Block =>
        match build_layout_tree child with
        | some b => root.pushChild b
        | none => root
      | .Inline =>
        match build_layout_tree child with
        | some b => root.pushInline b
        | none => root
      | .DisplayNone => root
    buildChildren root' rest
termination_by cs => sizeOf cs
decreasing_by
  all_goals simp
  all_goals omega

end

/- ===================== layout.rs : geometry pass ===================== -/

/-- The `width` local of `calculate_block_width`:
`style.value("width").unwrap_or(auto)`. -/
def widthValue (style : StyledNode) : Value :=
  (style.value "width").getD (Value.Keyword "auto")

/-- The `margin_left` local of `calculate_block_width`. -/
def marginLeftValue (style : StyledNode) : Value :=
  style.lookup "margin-left" "margin" (Value.Length 0 .Px)

/-- The `margin_right` local of `calculate_block_width`. -/
def marginRightValue (style : StyledNode) : Value :=
  style.lookup "margin-right" "margin" (Value.Length 0 .Px)

/-- The `border_left` local of `calculate_block_width`. -/
def borderLeftValue (style : StyledNode) : Value :=
  style.lookup "border-left-width" "border-width" (Value.Length 0 .Px)

/-- The `border_right` local of `calculate_block_width`. -/
def borderRightValue (style : StyledNode) : Value :=
  style.lookup "border-right-width" "border-width" (Value.Length 0 .Px)

/-- The `padding_left` local of `calculate_block_width`. -/
def paddingLeftValue (style : StyledNode) : Value :=
  style.lookup "padding-left" "padding" (Value.Length 0 .Px)

/-- The `padding_right` local of `calculate_block_width`. -/
def paddingRightValue (style : StyledNode) : Value :=
  style.lookup "padding-right" "padding" (Value.Length 0 .Px)

/-- The `total` local of `calculate_block_width`: the pixel sum of the seven
horizontal quantities (`auto` and every other non-length counts as 0). -/
def widthTotal (style : StyledNode) : ℚ :=
  sumPx ([marginLeftValue style, marginRightValue style, borderLeftValue style,
    borderRightValue style, paddingLeftValue style, paddingRightValue style,
    widthValue style].map Value.to_px)

/-- Mirrors `layout.rs` `LayoutBox::calculate_block_width`.  The Rust method
mutates `self.dimensions` after reading `self.get_style_node()`; here the
style node (guaranteed present for the `BlockNode` caller) and the current
dimensions are passed explicitly and the updated dimensions are returned.
The method's locals (`width`, `margin_left`, ..., `total`) are the named
definitions above; the two successive `if margin == auto` resets inside the
over-constrained `if` are folded into the conditions of two shadowing
`let`s. -/
def calculate_block_width (style : StyledNode) (containing_block : Dimensions)
    (d : Dimensions) : Dimensions :=
  let auto := Value.Keyword "auto"
  let width := widthValue style
  let margin_left := marginLeftValue style
  let margin_right := marginRightValue style
  let border_left := borderLeftValue style
  let border_right := borderRightValue style
  let padding_left := paddingLeftValue style
  let padding_right := paddingRightValue style
  let total := widthTotal style
  let margin_left :=
    if width ≠ auto ∧ total > containing_block.content.width ∧ margin_left = auto
    then Value.Length 0 .Px else margin_left
  let margin_right :=
    if width ≠ auto ∧ total > containing_block.content.width ∧ margin_right = auto
    then Value.Length 0 .Px else margin_right
  let underflow := containing_block.content.width - total
  let (width, margin_left, margin_right) :=
    match decide (width = auto), decide (margin_left = auto), decide (margin_right = auto) with
    | false, false, false =>
      (width, margin_left, Value.Length (margin_right.to_px + underflow) .Px)
    | false, false, true =>
      (width, margin_left, Value.Length underflow .Px)
    | false, true, false =>
      (width, Value.Length underflow .Px, margin_right)
    | true, _, _ =>
      let margin_left := if margin_left = auto then Value.Length 0 .Px else margin_left
      let margin_right := if margin_right = auto then Value.Length 0 .Px else margin_right
      if underflow ≥ 0 then
        (Value.Length underflow .Px, margin_left, margin_right)
      else
        (Value.Length 0 .Px, margin_left, Value.Length (margin_right.to_px + underflow) .Px)
    | false, true, true =>
      (width, Value.Length (underflow / 2) .Px, Value.Length (underflow / 2) .Px)
  { d with
    content := { d.content with width := width.to_px }
    padding := { d.padding with left := padding_left.to_px, right := padding_right.to_px }
    border := { d.border with left := border_left.to_px, right := border_right.to_px }
    margin := { d.margin with left := margin_left.to_px, right := margin_right.to_px } }

/-- Mirrors `layout.rs` `LayoutBox::calculate_block_position` in the same
explicit-dimensions style; `content.x` uses the left edges stored by the
width pass, `content.y` additionally uses the containing block's running
content height. -/
def calculate_block_position (style : StyledNode) (containing_block : Dimensions)
    (d : Dimensions) : Dimensions :=
  let zero := Value.Length 0 .Px
  let margin_top := (style.lookup "margin-top" "margin" zero).to_px
  let margin_bottom := (style.lookup "margin-bottom" "margin" zero).to_px
  let border_top := (style.lookup "border-top-width" "border-width" zero).to_px
  let border_bottom := (style.lookup "border-bottom-width" "border-width" zero).to_px
  let padding_top := (style.lookup "padding-top" "padding" zero).to_px
  let padding_bottom := (style.lookup "padding-bottom" "padding" zero).to_px
  { d with
    margin := { d.margin with top := margin_top, bottom := margin_bottom }
    border := { d.border with top := border_top, bottom := border_bottom }
    padding := { d.padding with top := padding_top, bottom := padding_bottom }
    content := { d.content with
      x := containing_block.content.x + d.margin.left + d.border.left + d.padding.left
      y := containing_block.content.height + containing_block.content.y
        + margin_top + border_top + padding_top } }

/-- Mirrors `layout.rs` `LayoutBox::calculate_block_height`: an explicit
`Length(h, Px)` value of the `height` property overrides the accumulated
content height, anything else leaves it unchanged. -/
def calculate_block_height (style : StyledNode) (d : Dimensions) : Dimensions :=
  match style.value "height" with
  | some (.Length h .Px) => { d with content := { d.content with height := h } }
  | _ => d

mutual

/-- Mirrors `layout.rs` `LayoutBox::layout`: block boxes get the full block
layout, inline and anonymous boxes are left untouched (the source's TODO). -/
def LayoutBox.layout (b : LayoutBox) (containing_block : Dimensions) : LayoutBox :=
  match b with
  | .mk dims bt cs =>
    match bt with
    | .BlockNode node =>
      let d1 := calculate_block_width node containing_block dims
      let d2 := calculate_block_position node containing_block d1
      let (d3, cs') := layoutChildren d2 cs
      let d4 := calculate_block_height node d3
      .mk d4 bt cs'
    | .InlineNode _ => .mk dims bt cs
    | .AnonymousBlock => .mk dims bt cs

/-- Mirrors `layout.rs` `LayoutBox::layout_block_children`: each child is
laid out against the current dimensions, then the content height grows by
that child's margin-box height. -/
def layoutChildren (d : Dimensions) : List LayoutBox → Dimensions × List LayoutBox
  | [] => (d, [])
  | child :: rest =>
    let child' := child.layout d
    let d' := { d with content :=
      { d.content with height := d.content.height + child'.dimensions.margin_box.height } }
    let (dFinal, rest') := layoutChildren d' rest
    (dFinal, child' :: rest')

end

/-- Mirrors `layout.rs` `layout_tree`: reset the containing block's content
height to 0, build the layout tree (`none` models the display-none panic),
then run the geometry pass on the root. -/
def layout_tree (node : StyledNode) (containing_block : Dimensions) : Option LayoutBox :=
  let containing_block :=
    { containing_block with content := { containing_block.content with height := 0 } }
  (build_layout_tree node).map (fun root_box => root_box.layout containing_block)

/- ===================== example inputs used by witnesses ===================== -/

/-- Example styled node declaring no properties at all. -/
def exAutoNode : StyledNode := StyledNode.mk (Node.mk [] (NodeType.Text "t")) [] []

/-- Example 800-wide containing block. -/
def exViewport : Dimensions :=
  { Dimensions.default with content := { Rect.default with width := 800 } }

/-- Example styled node with `width: 100px; margin-left: auto; margin-right: 0px`. -/
def exFixedNode : StyledNode :=
  StyledNode.mk (Node.mk [] (NodeType.Text "t"))
    [("width", Value.Length 100 CssUnit.Px), ("margin-left", Value.Keyword "auto"),
     ("margin-right", Value.Length 0 CssUnit.Px)] []


/-- Example styled node with `height: 42px`. -/
def exHeightParent : StyledNode :=
  StyledNode.mk (Node.mk [] (NodeType.Text "t")) [("height", Value.Length 42 CssUnit.Px)] []

/-- Example styled node with `height: 10px`. -/
def exHeightChild : StyledNode :=
  StyledNode.mk (Node.mk [] (NodeType.Text "t")) [("height", Value.Length 10 CssUnit.Px)] []


/-- Discriminator for the `BlockNode` variant. -/
def BoxType.isBlockNode : BoxType → Bool
  | .BlockNode _ => true
  | _ => false

mutual

/-- Structural invariant of layout trees: every `AnonymousBlock` box occurs
only as a direct child of a `BlockNode` box. -/
def anonOk : LayoutBox → Bool
  | .mk _ bt cs => anonOkList bt.isBlockNode cs

/-- List form of `anonOk`: `parentIsBlock` tells whether the parent box is a
`BlockNode`. -/
def anonOkList : Bool → List LayoutBox → Bool
  | _, [] => true
  | parentIsBlock, c :: cs =>
    ((!c.box_type.isAnon) || parentIsBlock) && anonOk c && anonOkList parentIsBlock cs

end

/-- Example inline-classified styled node (no `display` property). -/
def exInlineChild : StyledNode := StyledNode.mk (Node.mk [] (NodeType.Text "x")) [] []

/-- Example block-classified styled node. -/
def exBlockChild : StyledNode :=
  StyledNode.mk (Node.mk [] (NodeType.Text "y")) [("display", Value.Keyword "block")] []

/-- Example block parent whose children classify Inline, Inline, Block, Inline. -/
def exGroupParent : StyledNode :=
  StyledNode.mk (Node.mk [] (NodeType.Text "p")) [("display", Value.Keyword "block")]
    [exInlineChild, exInlineChild, exBlockChild, exInlineChild]

/-- The layout tree `build_layout_tree` produces for `exGroupParent`. -/
def exGroupTree : LayoutBox :=
  LayoutBox.mk Dimensions.default (.BlockNode exGroupParent)
    [LayoutBox.mk Dimensions.default .AnonymousBlock
      [LayoutBox.mk Dimensions.default (.InlineNode exInlineChild) [],
       LayoutBox.mk Dimensions.default (.InlineNode exInlineChild) []],
     LayoutBox.mk Dimensions.default (.BlockNode exBlockChild) [],
     LayoutBox.mk Dimensions.default .AnonymousBlock
      [LayoutBox.mk Dimensions.default (.InlineNode exInlineChild) []]]


/-- Modelled from the spec: the claim reads the element's `class` attribute
as a WHITESPACE-separated set; this definition follows those words (splitting
on every whitespace character), to be compared with the source's
`ElementData.classes`, which splits on the single space character only. -/
def whitespaceClasses (e : ElementData) : List String :=
  match e.attributes.get "class" with
  | some classList =>
    (splitChars (fun c => c.isWhitespace) classList.data).map (fun g => String.mk g)
  | none => []

/-- Whether a rule declares the property `p`. -/
def Rule.declares (r : Rule) (p : String) : Bool :=
  r.declarations.any (fun d => d.name == p)

/-- The value of the last declaration of `p` inside a rule (the last insert
into the `HashMap` wins within one rule). -/
def Rule.lastDecl (r : Rule) (p : String) : Option Value :=
  ((r.declarations.filter (fun d => d.name == p)).getLast?).map (fun d => d.value)

/-- The last rule of the list that declares `p`, with its attached
specificity and its last declared value for `p`. -/
def lastDeclaring (p : String) : List MatchedRule → Option (Specificity × Value)
  | [] => none
  | sr :: rest =>
    match lastDeclaring p rest with
    | some sv => some sv
    | none => (Rule.lastDecl sr.2 p).map (fun v => (sr.1, v))

/-- Spec-side cascade winner, following the claim's words: among the matching
rules that declare `p`, the highest-specificity one wins, and among equal
specificities the rule appearing later wins; its last declaration of `p`
provides the value. -/
def cascadeWinner (p : String) : List MatchedRule → Option (Specificity × Value)
  | [] => none
  | sr :: rest =>
    match cascadeWinner p rest, Rule.lastDecl sr.2 p with
    | none, none => none
    | none, some v => some (sr.1, v)
    | some sv, none => some sv
    | some sv, some v => if specLt sv.1 sr.1 then some (sr.1, v) else some sv


/-- Example rule `#x { width: 50px }` with specificity (1,0,0). -/
def exRuleA : Rule :=
  Rule.mk [Selector.Simple (SimpleSelector.mk none (some "x") [])]
    [Declaration.mk "width" (Value.Length 50 CssUnit.Px)]

/-- Example rule `div { width: 100px }` with specificity (0,0,1). -/
def exRuleB : Rule :=
  Rule.mk [Selector.Simple (SimpleSelector.mk (some "div") none [])]
    [Declaration.mk "width" (Value.Length 100 CssUnit.Px)]

/-- Example stylesheet holding `exRuleA` then `exRuleB`. -/
def exCascadeSheet : StyleSheet := StyleSheet.mk [exRuleA, exRuleB]

/-- Example element `<div id="x">`, matched by both example rules. -/
def exCascadeElem : ElementData := ElementData.mk "div" [("id", "x")]

/- ===================== general lemmas ===================== -/

@[simp] theorem Value.to_px_length (f : ℚ) : (Value.Length f CssUnit.Px).to_px = f := rfl

@[simp] theorem Value.to_px_keyword (s : String) : (Value.Keyword s).to_px = 0 := rfl

@[simp] theorem Value.to_px_color (c : Color) : (Value.ColorValue c).to_px = 0 := rfl

theorem zero_length_ne_auto : Value.Length 0 CssUnit.Px ≠ Value.Keyword "auto" := by decide

theorem widthTotal_eq (style : StyledNode) :
    widthTotal style = (marginLeftValue style).to_px + (marginRightValue style).to_px
      + (borderLeftValue style).to_px + (borderRightValue style).to_px
      + (paddingLeftValue style).to_px + (paddingRightValue style).to_px
      + (widthValue style).to_px := by
  simp [widthTotal, sumPx]; try ring

/- ===================== C6 ===================== -/

/-- C6: the display classification used by the layout tree builder maps the
resolved `display` property as follows: the keyword "none" yields
DisplayNone, the keyword "block" yields Block, and any other value —
including an absent `display` property — yields Inline. -/
theorem c6_display_classification (s : StyledNode) :
    (s.display = .DisplayNone ↔ s.value "display" = some (.Keyword "none"))
    ∧ (s.display = .Block ↔ s.value "display" = some (.Keyword "block"))
    ∧ (s.display = .Inline ↔ (s.value "display" ≠ some (.Keyword "none")
        ∧ s.value "display" ≠ some (.Keyword "block"))) := by
  cases h : s.value "display" with
  | none => simp [StyledNode.display, h]
  | some v =>
    cases v with
    | Keyword kw =>
      by_cases hb : kw = "block"
      · subst hb; simp [StyledNode.display, h]
      · by_cases hn : kw = "none"
        · subst hn; simp [StyledNode.display, h]
        · simp [StyledNode.display, h, hb, hn]
    | Length f u => simp [StyledNode.display, h]
    | ColorValue c => simp [StyledNode.display, h]

/- ===================== C8 ===================== -/

/-- C8: a root styled node whose display classifies as none makes the layout
pipeline abort: `layout_tree` (whose Rust original panics inside
`build_layout_tree`) yields no layout tree at all, partial or otherwise. -/
theorem c8_display_none_fatal (s : StyledNode) (cb : Dimensions)
    (h : s.display = .DisplayNone) : layout_tree s cb = none := by
  simp [layout_tree, build_layout_tree, h]

/-- C8 witness: a concrete root with `display: none` yields no layout tree. -/
theorem c8_display_none_fatal_witness :
    layout_tree
      (StyledNode.mk (Node.mk [] (NodeType.Text "t"))
        [("display", Value.Keyword "none")] [])
      Dimensions.default = none :=
  c8_display_none_fatal _ _ (by decide)

/- ===================== C9 ===================== -/

/-- C9: laying out an `InlineNode` or `AnonymousBlock` box is a no-op — the
box (hence every descendant) is returned unchanged — and when its dimensions
are the initial all-zero default its margin-box height contribution is 0. -/
theorem c9_inline_anonymous_layout_noop (b : LayoutBox) (cb : Dimensions)
    (h : (∃ n, b.box_type = .InlineNode n) ∨ b.box_type = .AnonymousBlock) :
    b.layout cb = b
    ∧ (b.dimensions = Dimensions.default →
        (b.layout cb).dimensions.margin_box.height = 0) := by
  cases b with
  | mk d bt cs =>
    have hlay : LayoutBox.layout (.mk d bt cs) cb = .mk d bt cs := by
      rcases h with ⟨n, hn⟩ | hn <;>
        (simp [LayoutBox.box_type] at hn; subst hn; simp [LayoutBox.layout])
    refine ⟨hlay, fun hd => ?_⟩
    rw [hlay]
    simp [LayoutBox.dimensions] at hd ⊢
    rw [hd]
    simp [Dimensions.margin_box, Dimensions.border_box, Dimensions.padding_box,
      Dimensions.default, Rect.default, EdgeSizes.default, Rect.expanded_by]

/-- C9 witness: a concrete anonymous block with default dimensions is
unchanged by layout and contributes zero margin-box height. -/
theorem c9_inline_anonymous_layout_noop_witness :
    (LayoutBox.mk Dimensions.default .AnonymousBlock []).layout Dimensions.default
      = LayoutBox.mk Dimensions.default .AnonymousBlock []
    ∧ ((LayoutBox.mk Dimensions.default .AnonymousBlock []).layout
        Dimensions.default).dimensions.margin_box.height = 0 :=
  ⟨(c9_inline_anonymous_layout_noop (LayoutBox.mk Dimensions.default .AnonymousBlock [])
      Dimensions.default (Or.inr rfl)).1,
   (c9_inline_anonymous_layout_noop (LayoutBox.mk Dimensions.default .AnonymousBlock [])
      Dimensions.default (Or.inr rfl)).2 rfl⟩

/- ===================== C2 ===================== -/

/-- C2: after width resolution, for every block box whose declared width is
not the keyword auto, laid out against a containing block of content width
CW, margin.left + border.left + padding.left + content.width + padding.right
+ border.right + margin.right = CW holds in the stored dimensions. -/
theorem c2_nonauto_width_box_invariant (style : StyledNode) (containing_block d : Dimensions)
    (h : widthValue style ≠ Value.Keyword "auto") :
    (calculate_block_width style containing_block d).margin.left
      + (calculate_block_width style containing_block d).border.left
      + (calculate_block_width style containing_block d).padding.left
      + (calculate_block_width style containing_block d).content.width
      + (calculate_block_width style containing_block d).padding.right
      + (calculate_block_width style containing_block d).border.right
      + (calculate_block_width style containing_block d).margin.right
      = containing_block.content.width := by
  have hTval := widthTotal_eq style
  simp only [calculate_block_width]
  set ML := marginLeftValue style
  set MR := marginRightValue style
  set BL := borderLeftValue style
  set BR := borderRightValue style
  set PL := paddingLeftValue style
  set PR := paddingRightValue style
  set W := widthValue style
  set CW := containing_block.content.width
  set T := widthTotal style
  clear_value ML MR BL BR PL PR W CW T
  by_cases hMLa : ML = Value.Keyword "auto" <;>
    by_cases hMRa : MR = Value.Keyword "auto" <;>
      by_cases hgt : T > CW
  · rw [if_pos ⟨h, hgt, hMLa⟩, if_pos ⟨h, hgt, hMRa⟩, decide_eq_false h,
      decide_eq_false zero_length_ne_auto]
    have hml : ML.to_px = 0 := by rw [hMLa]; rfl
    have hmr : MR.to_px = 0 := by rw [hMRa]; rfl
    simp only [Value.to_px_length]
    linarith [hTval]
  · rw [if_neg (fun c => hgt c.2.1), if_neg (fun c => hgt c.2.1), decide_eq_false h,
      decide_eq_true hMLa, decide_eq_true hMRa]
    have hml : ML.to_px = 0 := by rw [hMLa]; rfl
    have hmr : MR.to_px = 0 := by rw [hMRa]; rfl
    simp only [Value.to_px_length]
    linarith [hTval]
  · rw [if_pos ⟨h, hgt, hMLa⟩, if_neg (fun c => hMRa c.2.2), decide_eq_false h,
      decide_eq_false zero_length_ne_auto, decide_eq_false hMRa]
    have hml : ML.to_px = 0 := by rw [hMLa]; rfl
    simp only [Value.to_px_length]
    linarith [hTval]
  · rw [if_neg (fun c => hgt c.2.1), if_neg (fun c => hgt c.2.1), decide_eq_false h,
      decide_eq_true hMLa, decide_eq_false hMRa]
    have hml : ML.to_px = 0 := by rw [hMLa]; rfl
    simp only [Value.to_px_length]
    linarith [hTval]
  · rw [if_neg (fun c => hMLa c.2.2), if_pos ⟨h, hgt, hMRa⟩, decide_eq_false h,
      decide_eq_false hMLa, decide_eq_false zero_length_ne_auto]
    have hmr : MR.to_px = 0 := by rw [hMRa]; rfl
    simp only [Value.to_px_length]
    linarith [hTval]
  · rw [if_neg (fun c => hgt c.2.1), if_neg (fun c => hgt c.2.1), decide_eq_false h,
      decide_eq_false hMLa, decide_eq_true hMRa]
    have hmr : MR.to_px = 0 := by rw [hMRa]; rfl
    simp only [Value.to_px_length]
    linarith [hTval]
  · rw [if_neg (fun c => hMLa c.2.2), if_neg (fun c => hMRa c.2.2), decide_eq_false h,
      decide_eq_false hMLa, decide_eq_false hMRa]
    simp only [Value.to_px_length]
    linarith [hTval]
  · rw [if_neg (fun c => hgt c.2.1), if_neg (fun c => hgt c.2.1), decide_eq_false h,
      decide_eq_false hMLa, decide_eq_false hMRa]
    simp only [Value.to_px_length]
    linarith [hTval]

/-- C2 witness: `width:100px; margin-left:auto; margin-right:0` against an
800-wide containing block satisfies the horizontal box equation. -/
theorem c2_nonauto_width_box_invariant_witness :
    widthValue exFixedNode ≠ Value.Keyword "auto"
    ∧ ((calculate_block_width exFixedNode exViewport Dimensions.default).margin.left
      + (calculate_block_width exFixedNode exViewport Dimensions.default).border.left
      + (calculate_block_width exFixedNode exViewport Dimensions.default).padding.left
      + (calculate_block_width exFixedNode exViewport Dimensions.default).content.width
      + (calculate_block_width exFixedNode exViewport Dimensions.default).padding.right
      + (calculate_block_width exFixedNode exViewport Dimensions.default).border.right
      + (calculate_block_width exFixedNode exViewport Dimensions.default).margin.right
      = exViewport.content.width) :=
  ⟨by decide, c2_nonauto_width_box_invariant exFixedNode exViewport Dimensions.default
    (by decide)⟩

/- ===================== C3 ===================== -/

/-- C3: when the declared width resolves to the keyword auto (regardless of
margin auto-ness), every auto margin is forced to 0px; then if the underflow
CW - total is nonnegative the content width is set to the underflow, and
otherwise the content width is set to 0 and margin-right is increased by the
(negative) underflow. -/
theorem c3_auto_width_resolution (style : StyledNode) (containing_block d : Dimensions)
    (h : widthValue style = Value.Keyword "auto") :
    ((calculate_block_width style containing_block d).margin.left =
        (if marginLeftValue style = Value.Keyword "auto" then 0
         else (marginLeftValue style).to_px))
    ∧ (0 ≤ containing_block.content.width - widthTotal style →
        (calculate_block_width style containing_block d).content.width
            = containing_block.content.width - widthTotal style
        ∧ (calculate_block_width style containing_block d).margin.right =
            (if marginRightValue style = Value.Keyword "auto" then 0
             else (marginRightValue style).to_px))
    ∧ (containing_block.content.width - widthTotal style < 0 →
        (calculate_block_width style containing_block d).content.width = 0
        ∧ (calculate_block_width style containing_block d).margin.right =
            (if marginRightValue style = Value.Keyword "auto" then 0
             else (marginRightValue style).to_px)
              + (containing_block.content.width - widthTotal style)) := by
  simp only [calculate_block_width]
  set ML := marginLeftValue style
  set MR := marginRightValue style
  set BL := borderLeftValue style
  set BR := borderRightValue style
  set PL := paddingLeftValue style
  set PR := paddingRightValue style
  set W := widthValue style
  set CW := containing_block.content.width
  set T := widthTotal style
  clear_value ML MR BL BR PL PR W CW T
  rw [if_neg (fun c => c.1 h), if_neg (fun c => c.1 h), decide_eq_true h]
  by_cases hMLa : ML = Value.Keyword "auto" <;> by_cases hMRa : MR = Value.Keyword "auto"
  · rw [if_pos hMLa, if_pos hMRa, decide_eq_true hMLa, decide_eq_true hMRa]
    by_cases hu : CW - T ≥ 0
    · rw [if_pos hu]
      exact ⟨by simp [hMLa, hMRa], fun hpos => ⟨by simp, by simp [hMLa, hMRa]⟩,
        fun hneg => absurd hu (not_le.mpr hneg)⟩
    · rw [if_neg hu]
      exact ⟨by simp [hMLa, hMRa], fun hpos => absurd hpos hu,
        fun hneg => ⟨by simp, by simp [hMLa, hMRa]⟩⟩
  · rw [if_pos hMLa, if_neg hMRa, decide_eq_true hMLa, decide_eq_false hMRa]
    by_cases hu : CW - T ≥ 0
    · rw [if_pos hu]
      exact ⟨by simp [hMLa, hMRa], fun hpos => ⟨by simp, by simp [hMLa, hMRa]⟩,
        fun hneg => absurd hu (not_le.mpr hneg)⟩
    · rw [if_neg hu]
      exact ⟨by simp [hMLa, hMRa], fun hpos => absurd hpos hu,
        fun hneg => ⟨by simp, by simp [hMLa, hMRa]⟩⟩
  · rw [if_neg hMLa, if_pos hMRa, decide_eq_false hMLa, decide_eq_true hMRa]
    by_cases hu : CW - T ≥ 0
    · rw [if_pos hu]
      exact ⟨by simp [hMLa, hMRa], fun hpos => ⟨by simp, by simp [hMLa, hMRa]⟩,
        fun hneg => absurd hu (not_le.mpr hneg)⟩
    · rw [if_neg hu]
      exact ⟨by simp [hMLa, hMRa], fun hpos => absurd hpos hu,
        fun hneg => ⟨by simp, by simp [hMLa, hMRa]⟩⟩
  · rw [if_neg hMLa, if_neg hMRa, decide_eq_false hMLa, decide_eq_false hMRa]
    by_cases hu : CW - T ≥ 0
    · rw [if_pos hu]
      exact ⟨by simp [hMLa, hMRa], fun hpos => ⟨by simp, by simp [hMLa, hMRa]⟩,
        fun hneg => absurd hu (not_le.mpr hneg)⟩
    · rw [if_neg hu]
      exact ⟨by simp [hMLa, hMRa], fun hpos => absurd hpos hu,
        fun hneg => ⟨by simp, by simp [hMLa, hMRa]⟩⟩

/-- C3 witness: a box declaring nothing (width defaults to auto) against an
800-wide containing block resolves to content width 800 and zero margins. -/
theorem c3_auto_width_resolution_witness :
    (calculate_block_width exAutoNode exViewport Dimensions.default).content.width = 800
    ∧ (calculate_block_width exAutoNode exViewport Dimensions.default).margin.left = 0
    ∧ (calculate_block_width exAutoNode exViewport Dimensions.default).margin.right = 0 := by
  have hT : widthTotal exAutoNode = 0 := by
    simp [widthTotal, sumPx, marginLeftValue, marginRightValue, borderLeftValue,
      borderRightValue, paddingLeftValue, paddingRightValue, widthValue, StyledNode.lookup,
      StyledNode.value, StyledNode.specified_values, PropertyMap.get, exAutoNode]
  have h3 := c3_auto_width_resolution exAutoNode exViewport Dimensions.default (by decide)
  have h2 := h3.2.1 (by show (0:ℚ) ≤ 800 - widthTotal exAutoNode; rw [hT]; norm_num)
  refine ⟨?_, ?_, ?_⟩
  · rw [h2.1, hT]
    show (800:ℚ) - 0 = 800
    norm_num
  · rw [h3.1]
    simp [marginLeftValue, StyledNode.lookup, StyledNode.value, StyledNode.specified_values,
      PropertyMap.get, exAutoNode]
  · rw [h2.2]
    simp [marginRightValue, StyledNode.lookup, StyledNode.value, StyledNode.specified_values,
      PropertyMap.get, exAutoNode]

/- ===================== C7 ===================== -/

theorem calculate_block_height_no_override (style : StyledNode) (d : Dimensions)
    (h : ∀ hpx : ℚ, style.value "height" ≠ some (.Length hpx .Px)) :
    calculate_block_height style d = d := by
  unfold calculate_block_height
  cases hv : style.value "height" with
  | none => rfl
  | some v =>
    cases v with
    | Keyword s => rfl
    | ColorValue c => rfl
    | Length f u =>
      cases u
      exact absurd hv (h f)

theorem layoutChildren_height (cs : List LayoutBox) : ∀ d : Dimensions,
    (layoutChildren d cs).1.content.height
      = d.content.height
        + ((layoutChildren d cs).2.map (fun c => c.dimensions.margin_box.height)).sum := by
  induction cs with
  | nil => intro d; simp [layoutChildren]
  | cons c rest ih =>
    intro d
    simp only [layoutChildren]
    rw [ih]
    simp only [List.map_cons, List.sum_cons]
    ring

/-- C7: after a block box's children pass its content height is the sum of
its children's margin-box heights in document order, unless the styled node
declares an explicit pixel height, which overrides the accumulated value. -/
theorem c7_block_height_resolution (dims : Dimensions) (node : StyledNode)
    (cs : List LayoutBox) (cb : Dimensions) (h0 : dims.content.height = 0) :
    (∀ hpx : ℚ, node.value "height" = some (.Length hpx .Px) →
      ((LayoutBox.mk dims (.BlockNode node) cs).layout cb).dimensions.content.height = hpx)
    ∧ ((∀ hpx : ℚ, node.value "height" ≠ some (.Length hpx .Px)) →
      ((LayoutBox.mk dims (.BlockNode node) cs).layout cb).dimensions.content.height
        = (((LayoutBox.mk dims (.BlockNode node) cs).layout cb).children.map
            (fun c => c.dimensions.margin_box.height)).sum) := by
  constructor
  · intro hpx hh
    simp only [LayoutBox.layout]
    simp [calculate_block_height, hh, LayoutBox.dimensions]
  · intro hno
    simp only [LayoutBox.layout]
    rw [calculate_block_height_no_override _ _ hno]
    simp only [LayoutBox.dimensions, LayoutBox.children]
    rw [layoutChildren_height]
    have hpos : (calculate_block_position node cb
        (calculate_block_width node cb dims)).content.height
        = dims.content.height := rfl
    rw [hpos, h0, zero_add]
    rfl

/-- C7 witness: a block declaring `height: 42px` with one block child whose
laid-out margin-box height is 10px resolves to content height 42px. -/
theorem c7_block_height_resolution_witness :
    (((LayoutBox.mk Dimensions.default (.BlockNode exHeightParent)
        [LayoutBox.mk Dimensions.default (.BlockNode exHeightChild) []]).layout
          exViewport).dimensions.content.height = 42)
    ∧ (((LayoutBox.mk Dimensions.default (.BlockNode exHeightChild) []).layout
          exViewport).dimensions.margin_box.height = 10) := by
  constructor
  · exact (c7_block_height_resolution Dimensions.default exHeightParent
      [LayoutBox.mk Dimensions.default (.BlockNode exHeightChild) []] exViewport rfl).1
      42 (by decide)
  · simp [LayoutBox.layout, layoutChildren, LayoutBox.dimensions,
      calculate_block_height, exHeightChild, StyledNode.value, StyledNode.specified_values,
      PropertyMap.get, calculate_block_position, calculate_block_width,
      StyledNode.lookup, widthValue, marginLeftValue, marginRightValue, borderLeftValue,
      borderRightValue, paddingLeftValue, paddingRightValue, widthTotal, sumPx,
      Dimensions.margin_box, Dimensions.border_box, Dimensions.padding_box,
      Rect.expanded_by, Dimensions.default, Rect.default, EdgeSizes.default]

/- ===================== C4 and C10 : layout tree structure ===================== -/

theorem pushChild_box_type (root b : LayoutBox) :
    (root.pushChild b).box_type = root.box_type := by
  cases root; rfl

theorem pushInline_box_type (root b : LayoutBox) :
    (root.pushInline b).box_type = root.box_type := by
  cases root with
  | mk d bt cs => cases bt <;> rfl

theorem buildChildren_box_type (cs : List StyledNode) : ∀ root : LayoutBox,
    (buildChildren root cs).box_type = root.box_type := by
  induction cs with
  | nil => intro root; simp [buildChildren]
  | cons c rest ih =>
    intro root
    simp only [buildChildren]
    rw [ih]
    cases hd : c.display
    · cases hb : build_layout_tree c
      · rfl
      · exact pushInline_box_type _ _
    · cases hb : build_layout_tree c
      · rfl
      · exact pushChild_box_type _ _
    · rfl

theorem build_layout_tree_box_type (s : StyledNode) (lb : LayoutBox)
    (h : build_layout_tree s = some lb) :
    lb.box_type = .BlockNode s ∨ lb.box_type = .InlineNode s := by
  rw [build_layout_tree] at h
  cases hd : s.display <;> rw [hd] at h
  · simp only [Option.some.injEq] at h
    right
    rw [← h, buildChildren_box_type]
    rfl
  · simp only [Option.some.injEq] at h
    left
    rw [← h, buildChildren_box_type]
    rfl
  · simp at h

theorem build_layout_tree_not_anon (s : StyledNode) (lb : LayoutBox)
    (h : build_layout_tree s = some lb) : lb.box_type.isAnon = false := by
  rcases build_layout_tree_box_type s lb h with hb | hb <;> rw [hb] <;> rfl

@[simp] theorem BoxType.isAnon_anon : BoxType.isAnon .AnonymousBlock = true := rfl

@[simp] theorem BoxType.isAnon_block (n : StyledNode) :
    BoxType.isAnon (.BlockNode n) = false := rfl

@[simp] theorem BoxType.isAnon_inline (n : StyledNode) :
    BoxType.isAnon (.InlineNode n) = false := rfl

@[simp] theorem BoxType.isBlockNode_anon : BoxType.isBlockNode .AnonymousBlock = false := rfl

@[simp] theorem BoxType.isBlockNode_block (n : StyledNode) :
    BoxType.isBlockNode (.BlockNode n) = true := rfl

@[simp] theorem BoxType.isBlockNode_inline (n : StyledNode) :
    BoxType.isBlockNode (.InlineNode n) = false := rfl

theorem anonOkList_append (p : Bool) (l1 l2 : List LayoutBox) :
    anonOkList p (l1 ++ l2) = (anonOkList p l1 && anonOkList p l2) := by
  induction l1 with
  | nil => simp [anonOkList]
  | cons x rest ih =>
    simp only [List.cons_append, anonOkList, List.append_eq, ih, Bool.and_assoc]

theorem anonOk_mk (d : Dimensions) (bt : BoxType) (cs : List LayoutBox) :
    anonOk (.mk d bt cs) = anonOkList bt.isBlockNode cs := by
  rw [anonOk]

theorem pushChild_anonOk (root b : LayoutBox) (hr : anonOk root = true)
    (hb : anonOk b = true) (hba : b.box_type.isAnon = false) :
    anonOk (root.pushChild b) = true := by
  cases root with
  | mk d bt cs =>
    rw [LayoutBox.pushChild, anonOk_mk] at *
    rw [anonOkList_append, hr]
    simp [anonOkList, hb, hba]

theorem addInline_anonOk (b : LayoutBox) (hb : anonOk b = true)
    (hba : b.box_type.isAnon = false) :
    ∀ cs : List LayoutBox, anonOkList true cs = true →
      anonOkList true (addInline b cs) = true := by
  intro cs
  induction cs with
  | nil =>
    intro _
    simp [addInline, anonOkList, LayoutBox.pushChild, LayoutBox.new, anonOk_mk, hb, hba]
  | cons x rest ih =>
    cases rest with
    | nil =>
      intro h
      simp only [anonOkList, Bool.and_eq_true] at h
      obtain ⟨⟨hx1, hx2⟩, -⟩ := h
      by_cases hxa : x.box_type.isAnon = true
      · simp only [addInline, hxa, if_true]
        have := pushChild_anonOk x b hx2 hb hba
        simp [anonOkList, this, pushChild_box_type, hxa]
      · simp only [Bool.not_eq_true] at hxa
        simp only [addInline, hxa, Bool.false_eq_true, if_false]
        simp [anonOkList, hx1, hx2, hxa, LayoutBox.pushChild, LayoutBox.new, anonOk_mk,
          hb, hba]
    | cons y rest2 =>
      intro h
      rw [anonOkList, Bool.and_eq_true, Bool.and_eq_true] at h
      obtain ⟨⟨hx1, hx2⟩, hrest⟩ := h
      simp only [addInline]
      rw [anonOkList, Bool.and_eq_true, Bool.and_eq_true]
      exact ⟨⟨hx1, hx2⟩, ih hrest⟩

theorem pushInline_anonOk (root b : LayoutBox) (hr : anonOk root = true)
    (hb : anonOk b = true) (hba : b.box_type.isAnon = false) :
    anonOk (root.pushInline b) = true := by
  cases root with
  | mk d bt cs =>
    cases bt with
    | InlineNode n =>
      rw [show (LayoutBox.mk d (.InlineNode n) cs).pushInline b
          = (LayoutBox.mk d (.InlineNode n) cs).pushChild b from rfl]
      exact pushChild_anonOk _ _ hr hb hba
    | AnonymousBlock =>
      rw [show (LayoutBox.mk d .AnonymousBlock cs).pushInline b
          = (LayoutBox.mk d .AnonymousBlock cs).pushChild b from rfl]
      exact pushChild_anonOk _ _ hr hb hba
    | BlockNode n =>
      rw [LayoutBox.pushInline]
      simp only [LayoutBox.box_type, LayoutBox.dimensions, LayoutBox.children]
      rw [anonOk_mk] at *
      exact addInline_anonOk b hb hba cs hr

theorem buildChildren_anonOk : ∀ (cs : List StyledNode) (root : LayoutBox),
    anonOk root = true →
    (∀ c ∈ cs, ∀ lb, build_layout_tree c = some lb → anonOk lb = true) →
    anonOk (buildChildren root cs) = true := by
  intro cs
  induction cs with
  | nil =>
    intro root h _
    simpa [buildChildren] using h
  | cons c rest ih =>
    intro root hroot hall
    simp only [buildChildren]
    apply ih
    · cases hd : c.display
      · cases hb : build_layout_tree c with
        | none => exact hroot
        | some b =>
          exact pushInline_anonOk root b hroot
            (hall c (List.mem_cons_self c rest) b hb)
            (build_layout_tree_not_anon c b hb)
      · cases hb : build_layout_tree c with
        | none => exact hroot
        | some b =>
          exact pushChild_anonOk root b hroot
            (hall c (List.mem_cons_self c rest) b hb)
            (build_layout_tree_not_anon c b hb)
      · exact hroot
    · intro c' hc' lb hlb
      exact hall c' (List.mem_cons_of_mem c hc') lb hlb

theorem build_layout_tree_anonOk_fuel : ∀ (n : ℕ) (s : StyledNode), sizeOf s ≤ n →
    ∀ lb, build_layout_tree s = some lb → anonOk lb = true := by
  intro n
  induction n with
  | zero =>
    intro s hs
    exfalso
    cases s with
    | mk nd pm cs => simp at hs; try omega
  | succ n ih =>
    intro s hs lb hlb
    have hchild : ∀ c ∈ s.children, ∀ b, build_layout_tree c = some b → anonOk b = true := by
      intro c hc b hb
      have h1 : sizeOf c < sizeOf s.children := List.sizeOf_lt_of_mem hc
      have h2 : sizeOf s.children < sizeOf s := by
        cases s with
        | mk nd pm cs => simp [StyledNode.children]; try omega
      exact ih c (by omega) b hb
    rw [build_layout_tree] at hlb
    cases hd : s.display <;> rw [hd] at hlb
    · simp only [Option.some.injEq] at hlb
      rw [← hlb]
      exact buildChildren_anonOk s.children _ rfl hchild
    · simp only [Option.some.injEq] at hlb
      rw [← hlb]
      exact buildChildren_anonOk s.children _ rfl hchild
    · simp at hlb

theorem build_layout_tree_anonOk (s : StyledNode) (lb : LayoutBox)
    (h : build_layout_tree s = some lb) : anonOk lb = true :=
  build_layout_tree_anonOk_fuel (sizeOf s) s le_rfl lb h

theorem build_layout_tree_inline (s : StyledNode) (h : s.display = .Inline) :
    build_layout_tree s
      = some (buildChildren (LayoutBox.new (.InlineNode s)) s.children) := by
  rw [build_layout_tree, h]

theorem build_layout_tree_block (s : StyledNode) (h : s.display = .Block) :
    build_layout_tree s
      = some (buildChildren (LayoutBox.new (.BlockNode s)) s.children) := by
  rw [build_layout_tree, h]

theorem exGroupParent_build : build_layout_tree exGroupParent = some exGroupTree := by
  have hi : exInlineChild.display = .Inline := by decide
  have hb : exBlockChild.display = .Block := by decide
  have hp : exGroupParent.display = .Block := by decide
  have hic : exInlineChild.children = [] := rfl
  have hbc : exBlockChild.children = [] := rfl
  have hbi : build_layout_tree exInlineChild
      = some (LayoutBox.mk Dimensions.default (.InlineNode exInlineChild) []) := by
    rw [build_layout_tree_inline _ hi, hic]
    simp [buildChildren, LayoutBox.new]
  have hbb : build_layout_tree exBlockChild
      = some (LayoutBox.mk Dimensions.default (.BlockNode exBlockChild) []) := by
    rw [build_layout_tree_block _ hb, hbc]
    simp [buildChildren, LayoutBox.new]
  rw [build_layout_tree_block _ hp]
  rw [show exGroupParent.children
      = [exInlineChild, exInlineChild, exBlockChild, exInlineChild] from rfl]
  simp only [buildChildren, hi, hb, hbi, hbb]
  simp [LayoutBox.new, LayoutBox.pushInline, LayoutBox.pushChild, LayoutBox.box_type,
    LayoutBox.dimensions, LayoutBox.children, addInline, exGroupTree]

/-- C4 counterexample: the concrete block parent with children classified
Inline, Inline, Block, Inline produces THREE direct child boxes, not the
claimed "exactly two". -/
theorem c4_inline_grouping_counterexample :
    (build_layout_tree exGroupParent).map (fun b => b.children.length) = some 3
    ∧ (3 : ℕ) ≠ 2 := by
  rw [exGroupParent_build]
  exact ⟨rfl, by decide⟩

/-- C4 (amended): a block parent whose four children classify Inline,
Inline, Block, Inline produces exactly three direct child boxes: an
AnonymousBlock wrapping the first two inline children, then the Block child,
then a second AnonymousBlock wrapping the trailing inline child. -/
theorem c4_inline_grouping_amended (nd : Node) (pm : PropertyMap) (c1 c2 c3 c4 : StyledNode)
    (hs : (StyledNode.mk nd pm [c1, c2, c3, c4]).display = .Block)
    (h1 : c1.display = .Inline) (h2 : c2.display = .Inline)
    (h3 : c3.display = .Block) (h4 : c4.display = .Inline) :
    ∃ b1 b2 b3 b4 : LayoutBox,
      build_layout_tree c1 = some b1 ∧ build_layout_tree c2 = some b2
      ∧ build_layout_tree c3 = some b3 ∧ build_layout_tree c4 = some b4
      ∧ build_layout_tree (StyledNode.mk nd pm [c1, c2, c3, c4])
        = some (LayoutBox.mk Dimensions.default
            (.BlockNode (StyledNode.mk nd pm [c1, c2, c3, c4]))
            [LayoutBox.mk Dimensions.default .AnonymousBlock [b1, b2], b3,
             LayoutBox.mk Dimensions.default .AnonymousBlock [b4]]) := by
  obtain ⟨b1, h1e⟩ : ∃ b, build_layout_tree c1 = some b :=
    ⟨_, build_layout_tree_inline c1 h1⟩
  obtain ⟨b2, h2e⟩ : ∃ b, build_layout_tree c2 = some b :=
    ⟨_, build_layout_tree_inline c2 h2⟩
  obtain ⟨b3, h3e⟩ : ∃ b, build_layout_tree c3 = some b :=
    ⟨_, build_layout_tree_block c3 h3⟩
  obtain ⟨b4, h4e⟩ : ∃ b, build_layout_tree c4 = some b :=
    ⟨_, build_layout_tree_inline c4 h4⟩
  have hb3t : b3.box_type = .BlockNode c3 := by
    rw [build_layout_tree_block c3 h3, Option.some.injEq] at h3e
    rw [← h3e, buildChildren_box_type]
    rfl
  refine ⟨b1, b2, b3, b4, h1e, h2e, h3e, h4e, ?_⟩
  rw [build_layout_tree_block _ hs]
  rw [show (StyledNode.mk nd pm [c1, c2, c3, c4]).children = [c1, c2, c3, c4] from rfl]
  simp only [buildChildren, h1, h2, h3, h4, h1e, h2e, h3e, h4e]
  simp only [LayoutBox.new, LayoutBox.pushInline, LayoutBox.pushChild, LayoutBox.box_type,
    LayoutBox.dimensions, LayoutBox.children, addInline, hb3t, BoxType.isAnon_anon,
    BoxType.isAnon_block, if_true, Bool.false_eq_true, if_false]
  simp
  cases b3 with
  | mk d3 bt3 cs3 =>
    simp only [LayoutBox.box_type] at hb3t
    simp [hb3t]

/-- C4 witness: the amended grouping instantiated on a concrete tree. -/
theorem c4_inline_grouping_amended_witness :
    ∃ b1 b2 b3 b4 : LayoutBox,
      build_layout_tree exInlineChild = some b1 ∧ build_layout_tree exInlineChild = some b2
      ∧ build_layout_tree exBlockChild = some b3 ∧ build_layout_tree exInlineChild = some b4
      ∧ build_layout_tree (StyledNode.mk (Node.mk [] (NodeType.Text "p"))
          [("display", Value.Keyword "block")]
          [exInlineChild, exInlineChild, exBlockChild, exInlineChild])
        = some (LayoutBox.mk Dimensions.default
            (.BlockNode (StyledNode.mk (Node.mk [] (NodeType.Text "p"))
              [("display", Value.Keyword "block")]
              [exInlineChild, exInlineChild, exBlockChild, exInlineChild]))
            [LayoutBox.mk Dimensions.default .AnonymousBlock [b1, b2], b3,
             LayoutBox.mk Dimensions.default .AnonymousBlock [b4]]) :=
  c4_inline_grouping_amended (Node.mk [] (NodeType.Text "p")) [("display", Value.Keyword "block")]
    exInlineChild exInlineChild exBlockChild exInlineChild
    (by decide) (by decide) (by decide) (by decide) (by decide)

/-- C10: `get_inline_container` on an InlineNode or AnonymousBlock box is
the box itself, so an inline child is appended directly to that box's
children (`pushInline` = `pushChild`); consequently every AnonymousBlock box
in a built layout tree occurs only as a direct child of a BlockNode box
(`anonOk`). -/
theorem c10_inline_container_anonymous_under_block :
    (∀ b child : LayoutBox,
      ((∃ n, b.box_type = .InlineNode n) ∨ b.box_type = .AnonymousBlock) →
        b.pushInline child = b.pushChild child)
    ∧ (∀ (s : StyledNode) (lb : LayoutBox), build_layout_tree s = some lb →
        anonOk lb = true) := by
  constructor
  · intro b child hb
    cases b with
    | mk d bt cs =>
      rcases hb with ⟨n, hn⟩ | hn <;>
        (simp only [LayoutBox.box_type] at hn; subst hn; rfl)
  · exact build_layout_tree_anonOk

/-- C10 witness: a concrete anonymous box takes inline pushes directly, and
the concrete built tree `exGroupTree` satisfies the anonymous-only-under-block
invariant. -/
theorem c10_inline_container_anonymous_under_block_witness :
    (LayoutBox.mk Dimensions.default .AnonymousBlock []).pushInline exGroupTree
      = (LayoutBox.mk Dimensions.default .AnonymousBlock []).pushChild exGroupTree
    ∧ anonOk exGroupTree = true :=
  ⟨c10_inline_container_anonymous_under_block.1 (LayoutBox.mk Dimensions.default .AnonymousBlock []) exGroupTree
      (Or.inr rfl),
   c10_inline_container_anonymous_under_block.2 exGroupParent exGroupTree exGroupParent_build⟩

/- ===================== C5 ===================== -/

/-- C5 counterexample: for the element with `class="a<TAB>b"` and the
selector `.a`, the claim's whitespace-separated reading says the class "a"
is present, so `matches` should return true — but the source splits on the
space character only and returns false. -/
theorem c5_matches_whitespace_counterexample :
    matchesSelector (ElementData.mk "div" [("class", "a\tb")])
        (.Simple (SimpleSelector.mk none none ["a"])) = false
    ∧ (whitespaceClasses (ElementData.mk "div" [("class", "a\tb")])).contains "a" = true := by
  decide

/-- C5 (amended): `matches` returns true iff the selector's tag-name, when
specified, equals the element's tag, the selector's id, when specified,
equals the element's id attribute, and every class listed in the selector is
a member of the element's SPACE-separated (single ' ' character) class
attribute read as a set; in particular the empty simple selector matches
every element. -/
theorem c5_matches_characterization :
    (∀ (elem : ElementData) (sel : SimpleSelector),
      matchesSelector elem (.Simple sel) = true ↔
        ((∀ n, sel.tag_name = some n → elem.tag_name = n)
         ∧ (∀ i, sel.id = some i → elem.id = some i)
         ∧ (∀ c ∈ sel.cls, elem.classes.contains c = true)))
    ∧ (∀ elem : ElementData,
        matchesSelector elem (.Simple (SimpleSelector.mk none none [])) = true) := by
  constructor
  · intro elem sel
    cases sel with
    | mk tn idn cls =>
      cases tn with
      | none =>
        cases idn with
        | none =>
          simp [matchesSelector, matches_simple_selector, List.any_eq_true]
        | some i =>
          simp [matchesSelector, matches_simple_selector, List.any_eq_true]
      | some n =>
        cases idn with
        | none =>
          simp [matchesSelector, matches_simple_selector, List.any_eq_true]
        | some i =>
          simp [matchesSelector, matches_simple_selector, List.any_eq_true]
  · intro elem
    simp [matchesSelector, matches_simple_selector]

/-- C5 witness: a selector with tag, id and two classes matches a concrete
element carrying exactly those, via the characterization. -/
theorem c5_matches_characterization_witness :
    matchesSelector (ElementData.mk "p" [("id", "main"), ("class", "a b")])
      (.Simple (SimpleSelector.mk (some "p") (some "main") ["a", "b"])) = true :=
  (c5_matches_characterization.1 (ElementData.mk "p" [("id", "main"), ("class", "a b")])
      (SimpleSelector.mk (some "p") (some "main") ["a", "b"])).mpr
    ⟨fun n h => Option.some.inj h, fun i h => h, by decide⟩

/- ===================== C1 : the cascade ===================== -/

theorem specLe_refl (a : Specificity) : specLe a a = true := by
  simp [specLe]

theorem specLe_trans {a b c : Specificity} (h1 : specLe a b = true)
    (h2 : specLe b c = true) : specLe a c = true := by
  simp [specLe] at *
  omega

theorem specLe_of_specLt {a b : Specificity} (h : specLt a b = true) :
    specLe a b = true := by
  simp [specLe, specLt] at *
  omega

theorem specLt_false_of_specLe {a b : Specificity} (h : specLe a b = true) :
    specLt b a = false := by
  simp [specLe, specLt] at *
  omega

theorem specLt_of_not_specLe {a b : Specificity} (h : specLe a b = false) :
    specLt b a = true := by
  simp [specLe, specLt] at *
  omega

theorem specLe_of_not_specLt {a b : Specificity} (h : specLt a b = false) :
    specLe b a = true := by
  simp [specLe, specLt] at *
  omega

theorem specLe_specLt_trans {a b c : Specificity} (h1 : specLe a b = true)
    (h2 : specLt b c = true) : specLt a c = true := by
  simp [specLe, specLt] at *
  omega

theorem PropertyMap.get_insert (m : PropertyMap) (k p : String) (v : Value) :
    (m.insert k v).get p = if k == p then some v else m.get p := by
  simp only [PropertyMap.insert, PropertyMap.get, List.find?]
  cases h : (k == p) <;> simp [h]

theorem foldl_insert_get (p : String) : ∀ (ds : List Declaration) (m : PropertyMap),
    (ds.foldl (fun acc d => acc.insert d.name d.value) m).get p
      = match (ds.filter (fun d => d.name == p)).getLast? with
        | some d => some d.value
        | none => m.get p := by
  intro ds
  induction ds with
  | nil => intro m; rfl
  | cons d rest ih =>
    intro m
    simp only [List.foldl_cons]
    rw [ih]
    cases hn : (d.name == p) with
    | false =>
      simp only [List.filter_cons, hn, Bool.false_eq_true, if_false]
      cases hl : (rest.filter (fun d => d.name == p)).getLast? with
      | some d' => simp
      | none =>
        simp only
        rw [PropertyMap.get_insert, hn]
        simp
    | true =>
      simp only [List.filter_cons, hn, if_true]
      cases hfl : rest.filter (fun d => d.name == p) with
      | nil =>
        simp only [hfl, List.getLast?_singleton]
        rw [PropertyMap.get_insert, hn]
        simp
      | cons x xs =>
        rw [List.getLast?_cons_cons]
        cases hxl : (x :: xs).getLast? with
        | some d' => rfl
        | none =>
          rw [List.getLast?_eq_none_iff] at hxl
          exact absurd hxl (List.cons_ne_nil x xs)

theorem Rule.lastDecl_none_iff (r : Rule) (p : String) :
    Rule.lastDecl r p = none ↔ r.declares p = false := by
  unfold Rule.lastDecl Rule.declares
  cases hfl : r.declarations.filter (fun d => d.name == p) with
  | nil =>
    simp only [List.getLast?_nil, Option.map_none]
    constructor
    · intro _
      rw [← Bool.not_eq_true, List.any_eq_true]
      rintro ⟨d, hd, hdn⟩
      have : d ∈ r.declarations.filter (fun d => d.name == p) :=
        List.mem_filter.mpr ⟨hd, hdn⟩
      rw [hfl] at this
      exact absurd this (List.not_mem_nil d)
    · intro _; rfl
  | cons x xs =>
    constructor
    · intro h
      exfalso
      cases hxl : (x :: xs).getLast? with
      | some d' => rw [hxl] at h; simp at h
      | none =>
        rw [List.getLast?_eq_none_iff] at hxl
        exact absurd hxl (List.cons_ne_nil x xs)
    · intro h
      exfalso
      have hx : x ∈ r.declarations.filter (fun d => d.name == p) := by
        rw [hfl]; exact List.mem_cons_self x xs
      rw [List.mem_filter] at hx
      rw [← Bool.not_eq_true, List.any_eq_true] at h
      exact h ⟨x, hx.1, hx.2⟩

theorem Rule.lastDecl_some_of_declares (r : Rule) (p : String)
    (h : r.declares p = true) : ∃ v, Rule.lastDecl r p = some v := by
  cases hl : Rule.lastDecl r p with
  | some v => exact ⟨v, rfl⟩
  | none =>
    rw [Rule.lastDecl_none_iff] at hl
    rw [hl] at h
    exact absurd h (by simp)

theorem rules_foldl_get (p : String) : ∀ (L : List MatchedRule) (m : PropertyMap),
    (L.foldl (fun values sr =>
        sr.2.declarations.foldl (fun acc d => acc.insert d.name d.value) values) m).get p
      = match lastDeclaring p L with
        | some sv => some sv.2
        | none => m.get p := by
  intro L
  induction L with
  | nil => intro m; rfl
  | cons sr rest ih =>
    intro m
    simp only [List.foldl_cons]
    rw [ih]
    simp only [lastDeclaring]
    cases hld : lastDeclaring p rest with
    | some sv => rfl
    | none =>
      simp only
      rw [foldl_insert_get]
      unfold Rule.lastDecl
      cases hgl : (sr.2.declarations.filter (fun d => d.name == p)).getLast? with
      | some d' => rfl
      | none => rfl

theorem insertBySpec_mem (x : MatchedRule) :
    ∀ (S : List MatchedRule) (z : MatchedRule),
      z ∈ insertBySpec x S ↔ z = x ∨ z ∈ S := by
  intro S
  induction S with
  | nil => intro z; simp [insertBySpec]
  | cons y ys ih =>
    intro z
    by_cases h : specLe x.1 y.1 = true
    · simp only [insertBySpec]
      rw [if_pos h]
      simp only [List.mem_cons]
    · simp only [insertBySpec]
      rw [if_neg h]
      simp only [List.mem_cons, ih]
      tauto

theorem insertBySpec_pairwise (x : MatchedRule) :
    ∀ S : List MatchedRule, List.Pairwise (fun a b => specLe a.1 b.1 = true) S →
      List.Pairwise (fun a b => specLe a.1 b.1 = true) (insertBySpec x S) := by
  intro S
  induction S with
  | nil => intro _; simp [insertBySpec]
  | cons y ys ih =>
    intro hp
    rw [List.pairwise_cons] at hp
    obtain ⟨hy, hys⟩ := hp
    by_cases h : specLe x.1 y.1 = true
    · simp only [insertBySpec]
      rw [if_pos h]
      rw [List.pairwise_cons]
      constructor
      · intro z hz
        rcases List.mem_cons.mp hz with hz | hz
        · rw [hz]; exact h
        · exact specLe_trans h (hy z hz)
      · rw [List.pairwise_cons]
        exact ⟨hy, hys⟩
    · have hf : specLe x.1 y.1 = false := Bool.eq_false_iff.mpr h
      have hyx : specLe y.1 x.1 = true := specLe_of_specLt (specLt_of_not_specLe hf)
      simp only [insertBySpec]
      rw [if_neg h]
      rw [List.pairwise_cons]
      constructor
      · intro z hz
        rcases (insertBySpec_mem x ys z).mp hz with hz | hz
        · rw [hz]; exact hyx
        · exact hy z hz
      · exact ih hys

theorem sortBySpec_pairwise (L : List MatchedRule) :
    List.Pairwise (fun a b => specLe a.1 b.1 = true) (sortBySpec L) := by
  induction L with
  | nil => simp [sortBySpec]
  | cons x xs ih => exact insertBySpec_pairwise x (sortBySpec xs) ih

theorem lastDeclaring_mem (p : String) : ∀ (L : List MatchedRule) (sv : Specificity × Value),
    lastDeclaring p L = some sv →
      ∃ sr ∈ L, sr.1 = sv.1 ∧ Rule.lastDecl sr.2 p = some sv.2 := by
  intro L
  induction L with
  | nil => intro sv h; simp [lastDeclaring] at h
  | cons sr rest ih =>
    intro sv h
    simp only [lastDeclaring] at h
    cases hld : lastDeclaring p rest with
    | some sv' =>
      rw [hld] at h
      simp only [Option.some.injEq] at h
      obtain ⟨sr', hmem, h1, h2⟩ := ih sv' hld
      exact ⟨sr', List.mem_cons_of_mem sr hmem, h ▸ h1, h ▸ h2⟩
    | none =>
      rw [hld] at h
      cases hlr : Rule.lastDecl sr.2 p with
      | none => rw [hlr] at h; simp at h
      | some v =>
        rw [hlr] at h
        simp only [Option.map_some', Option.some.injEq] at h
        subst h
        exact ⟨sr, List.mem_cons_self sr rest, rfl, hlr⟩

theorem lastDeclaring_insertBySpec (p : String) (x : MatchedRule) :
    ∀ S : List MatchedRule, List.Pairwise (fun a b => specLe a.1 b.1 = true) S →
      lastDeclaring p (insertBySpec x S)
        = match lastDeclaring p S, Rule.lastDecl x.2 p with
          | none, none => none
          | none, some v => some (x.1, v)
          | some sv, none => some sv
          | some sv, some v => if specLt sv.1 x.1 then some (x.1, v) else some sv := by
  intro S
  induction S with
  | nil =>
    intro _
    cases hlx : Rule.lastDecl x.2 p <;> simp [lastDeclaring, insertBySpec, hlx]
  | cons y ys ih =>
    intro hp
    rw [List.pairwise_cons] at hp
    obtain ⟨hy, hys⟩ := hp
    by_cases hxy : specLe x.1 y.1 = true
    · simp only [insertBySpec]
      rw [if_pos hxy]
      simp only [lastDeclaring]
      cases hw : lastDeclaring p ys with
      | none =>
        cases hly : Rule.lastDecl y.2 p with
        | none => cases hlx : Rule.lastDecl x.2 p <;> simp [hlx, hly]
        | some vy =>
          have hsv : specLe x.1 y.1 = true := hxy
          have hlt : specLt y.1 x.1 = false := specLt_false_of_specLe hsv
          cases hlx : Rule.lastDecl x.2 p <;> simp [hlx, hly, hlt]
      | some sv =>
        obtain ⟨sr, hmem, h1, h2⟩ := lastDeclaring_mem p (y :: ys) sv (by
          simp only [lastDeclaring, hw]; try rfl)
        have hle : specLe x.1 sv.1 = true := by
          rcases List.mem_cons.mp hmem with hh | hh
          · rw [← h1, hh]
            exact hxy
          · rw [← h1]
            exact specLe_trans hxy (hy sr hh)
        have hlt : specLt sv.1 x.1 = false := specLt_false_of_specLe hle
        cases hlx : Rule.lastDecl x.2 p <;> simp [hlx, hlt]
    · have hf : specLe x.1 y.1 = false := Bool.eq_false_iff.mpr hxy
      have hyx : specLt y.1 x.1 = true := specLt_of_not_specLe hf
      simp only [insertBySpec]
      rw [if_neg hxy]
      simp only [lastDeclaring]
      rw [ih hys]
      cases hw : lastDeclaring p ys with
      | some sv =>
        cases hlx : Rule.lastDecl x.2 p with
        | none => simp
        | some v =>
          by_cases hlt : specLt sv.1 x.1 = true
          · simp [hlt]
          · have hlt' : specLt sv.1 x.1 = false := Bool.eq_false_iff.mpr hlt
            simp [hlt']
      | none =>
        cases hlx : Rule.lastDecl x.2 p with
        | none => cases hly : Rule.lastDecl y.2 p <;> simp [hly]
        | some v =>
          cases hly : Rule.lastDecl y.2 p with
          | none => simp [hly]
          | some vy => simp [hly, hyx]

theorem lastDeclaring_sortBySpec (p : String) (L : List MatchedRule) :
    lastDeclaring p (sortBySpec L) = cascadeWinner p L := by
  induction L with
  | nil => rfl
  | cons x xs ih =>
    simp only [sortBySpec, cascadeWinner]
    rw [lastDeclaring_insertBySpec p x (sortBySpec xs) (sortBySpec_pairwise xs), ih]

theorem cascadeWinner_none_iff (p : String) : ∀ L : List MatchedRule,
    cascadeWinner p L = none ↔ ∀ sr ∈ L, sr.2.declares p = false := by
  intro L
  induction L with
  | nil => simp [cascadeWinner]
  | cons x xs ih =>
    simp only [cascadeWinner]
    cases hw : cascadeWinner p xs with
    | some sv =>
      cases hlx : Rule.lastDecl x.2 p with
      | none =>
        simp only []
        constructor
        · intro h; simp at h
        · intro h
          have : cascadeWinner p xs = none := ih.mpr (fun sr hsr =>
            h sr (List.mem_cons_of_mem x hsr))
          rw [this] at hw
          cases hw
      | some v =>
        constructor
        · intro h
          dsimp only at h
          by_cases hlt : specLt sv.1 x.1 = true
          · rw [if_pos hlt] at h; cases h
          · rw [if_neg hlt] at h; cases h
        · intro h
          have hx := h x (List.mem_cons_self x xs)
          rw [← Rule.lastDecl_none_iff] at hx
          rw [hx] at hlx
          cases hlx
    | none =>
      cases hlx : Rule.lastDecl x.2 p with
      | none =>
        simp only []
        constructor
        · intro _ sr hsr
          rcases List.mem_cons.mp hsr with hh | hh
          · rw [hh, ← Rule.lastDecl_none_iff]
            exact hlx
          · exact (ih.mp hw) sr hh
        · intro _; trivial
      | some v =>
        simp only []
        constructor
        · intro h; cases h
        · intro h
          have hx := h x (List.mem_cons_self x xs)
          rw [← Rule.lastDecl_none_iff] at hx
          rw [hx] at hlx
          cases hlx

theorem cascadeWinner_le (p : String) : ∀ (L : List MatchedRule) (sv : Specificity × Value),
    cascadeWinner p L = some sv →
      ∀ sr ∈ L, sr.2.declares p = true → specLe sr.1 sv.1 = true := by
  intro L
  induction L with
  | nil => intro sv h; cases h
  | cons x xs ih =>
    intro sv h sr hsr hdec
    simp only [cascadeWinner] at h
    cases hw : cascadeWinner p xs with
    | none =>
      rw [hw] at h
      have hnone := (cascadeWinner_none_iff p xs).mp hw
      cases hlx : Rule.lastDecl x.2 p with
      | none => rw [hlx] at h; cases h
      | some v =>
        rw [hlx] at h
        simp only [Option.some.injEq] at h
        rcases List.mem_cons.mp hsr with hh | hh
        · rw [hh, ← h]
          exact specLe_refl x.1
        · rw [hnone sr hh] at hdec
          cases hdec
    | some sv' =>
      rw [hw] at h
      cases hlx : Rule.lastDecl x.2 p with
      | none =>
        rw [hlx] at h
        simp only [Option.some.injEq] at h
        rcases List.mem_cons.mp hsr with hh | hh
        · have hxf := (Rule.lastDecl_none_iff x.2 p).mp hlx
          rw [hh] at hdec
          rw [hxf] at hdec
          cases hdec
        · rw [← h]
          exact ih sv' hw sr hh hdec
      | some v =>
        rw [hlx] at h
        dsimp only at h
        by_cases hlt : specLt sv'.1 x.1 = true
        · rw [if_pos hlt] at h
          simp only [Option.some.injEq] at h
          rcases List.mem_cons.mp hsr with hh | hh
          · rw [hh, ← h]
            exact specLe_refl x.1
          · have h1 := ih sv' hw sr hh hdec
            rw [← h]
            exact specLe_of_specLt (specLe_specLt_trans h1 hlt)
        · rw [if_neg hlt] at h
          simp only [Option.some.injEq] at h
          rcases List.mem_cons.mp hsr with hh | hh
          · rw [hh, ← h]
            exact specLe_of_not_specLt (Bool.eq_false_iff.mpr hlt)
          · rw [← h]
            exact ih sv' hw sr hh hdec

theorem Rule.declares_of_lastDecl_some (r : Rule) (p : String) (v : Value)
    (h : Rule.lastDecl r p = some v) : r.declares p = true := by
  by_cases hd : r.declares p = true
  · exact hd
  · have hf : r.declares p = false := Bool.eq_false_iff.mpr hd
    rw [← Rule.lastDecl_none_iff] at hf
    rw [hf] at h
    cases h

theorem cascadeWinner_decomposition (p : String) :
    ∀ (L : List MatchedRule) (sv : Specificity × Value),
      cascadeWinner p L = some sv →
        ∃ (l₁ : List MatchedRule) (sr : MatchedRule) (l₂ : List MatchedRule),
          L = l₁ ++ sr :: l₂
          ∧ sr.1 = sv.1
          ∧ sr.2.declares p = true
          ∧ Rule.lastDecl sr.2 p = some sv.2
          ∧ (∀ sr' ∈ l₁, sr'.2.declares p = true → specLe sr'.1 sv.1 = true)
          ∧ (∀ sr' ∈ l₂, sr'.2.declares p = true → specLt sr'.1 sv.1 = true) := by
  intro L
  induction L with
  | nil => intro sv h; cases h
  | cons x xs ih =>
    intro sv h
    simp only [cascadeWinner] at h
    cases hw : cascadeWinner p xs with
    | none =>
      rw [hw] at h
      cases hlx : Rule.lastDecl x.2 p with
      | none => rw [hlx] at h; cases h
      | some v =>
        rw [hlx] at h
        simp only [Option.some.injEq] at h
        subst h
        refine ⟨[], x, xs, by simp, rfl, Rule.declares_of_lastDecl_some x.2 p v hlx, hlx,
          by simp, ?_⟩
        intro sr' hsr' hdec
        have := (cascadeWinner_none_iff p xs).mp hw sr' hsr'
        rw [this] at hdec
        cases hdec
    | some sv' =>
      rw [hw] at h
      cases hlx : Rule.lastDecl x.2 p with
      | none =>
        rw [hlx] at h
        simp only [Option.some.injEq] at h
        subst h
        obtain ⟨l₁, sr, l₂, hL, h1, h2, h3, h4, h5⟩ := ih sv' hw
        refine ⟨x :: l₁, sr, l₂, by rw [hL]; rfl, h1, h2, h3, ?_, h5⟩
        intro sr' hsr' hdec
        rcases List.mem_cons.mp hsr' with hh | hh
        · rw [hh] at hdec
          have hxf := (Rule.lastDecl_none_iff x.2 p).mp hlx
          rw [hxf] at hdec
          cases hdec
        · exact h4 sr' hh hdec
      | some v =>
        rw [hlx] at h
        dsimp only at h
        by_cases hlt : specLt sv'.1 x.1 = true
        · rw [if_pos hlt] at h
          simp only [Option.some.injEq] at h
          subst h
          refine ⟨[], x, xs, by simp, rfl, Rule.declares_of_lastDecl_some x.2 p v hlx, hlx,
            by simp, ?_⟩
          intro sr' hsr' hdec
          exact specLe_specLt_trans (cascadeWinner_le p xs sv' hw sr' hsr' hdec) hlt
        · rw [if_neg hlt] at h
          simp only [Option.some.injEq] at h
          subst h
          obtain ⟨l₁, sr, l₂, hL, h1, h2, h3, h4, h5⟩ := ih sv' hw
          refine ⟨x :: l₁, sr, l₂, by rw [hL]; rfl, h1, h2, h3, ?_, h5⟩
          intro sr' hsr' hdec
          rcases List.mem_cons.mp hsr' with hh | hh
          · rw [hh]
            exact specLe_of_not_specLt (Bool.eq_false_iff.mpr hlt)
          · exact h4 sr' hh hdec

theorem cascadeWinner_mem (p : String) :
    ∀ (L : List MatchedRule) (sv : Specificity × Value),
      cascadeWinner p L = some sv →
        ∃ sr ∈ L, sr.1 = sv.1 ∧ sr.2.declares p = true := by
  intro L sv h
  obtain ⟨l₁, sr, l₂, hL, h1, h2, -, -, -⟩ := cascadeWinner_decomposition p L sv h
  exact ⟨sr, by rw [hL]; exact List.mem_append_right l₁ (List.mem_cons_self sr l₂), h1, h2⟩

theorem cascadeWinner_of_decomposition (p : String) :
    ∀ (l₁ : List MatchedRule) (sr : MatchedRule) (l₂ : List MatchedRule) (v : Value),
      Rule.lastDecl sr.2 p = some v →
      (∀ sr' ∈ l₁, sr'.2.declares p = true → specLe sr'.1 sr.1 = true) →
      (∀ sr' ∈ l₂, sr'.2.declares p = true → specLt sr'.1 sr.1 = true) →
      cascadeWinner p (l₁ ++ sr :: l₂) = some (sr.1, v) := by
  intro l₁
  induction l₁ with
  | nil =>
    intro sr l₂ v hlast _ hl₂
    simp only [List.nil_append, cascadeWinner]
    cases hw : cascadeWinner p l₂ with
    | none => rw [hlast]
    | some sv₂ =>
      rw [hlast]
      obtain ⟨sr₂, hmem, he, hdec⟩ := cascadeWinner_mem p l₂ sv₂ hw
      have hlt : specLt sv₂.1 sr.1 = true := by
        rw [← he]
        exact hl₂ sr₂ hmem hdec
      dsimp only
      rw [if_pos hlt]
  | cons y l₁' ih =>
    intro sr l₂ v hlast hl₁ hl₂
    simp only [List.cons_append, List.append_eq, cascadeWinner]
    rw [ih sr l₂ v hlast (fun sr' hsr' => hl₁ sr' (List.mem_cons_of_mem y hsr')) hl₂]
    cases hly : Rule.lastDecl y.2 p with
    | none => rfl
    | some vy =>
      have hdecy : y.2.declares p = true := Rule.declares_of_lastDecl_some y.2 p vy hly
      have hle : specLe y.1 sr.1 = true := hl₁ y (List.mem_cons_self y l₁') hdecy
      have hlt : specLt sr.1 y.1 = false := specLt_false_of_specLe hle
      dsimp only
      rw [if_neg (by rw [hlt]; exact Bool.false_ne_true)]

/-- C1: for every element and stylesheet, `specified_values` assigns a
property name exactly the value of the last declaration of that property in
the winning matching rule, where the winning rule — written here as the
split l1 ++ winner :: l2 of `matching_rules` — is the one declaring the
property such that every earlier declaring rule has less-or-equal
specificity and every later declaring rule has strictly smaller specificity
(so among equal specificities the rule appearing later in the stylesheet
wins, its declarations overwriting earlier ones); a property declared by no
matching rule is absent. -/
theorem c1_cascade_winner (elem : ElementData) (stylesheet : StyleSheet) (p : String) :
    ((specified_values elem stylesheet).get p = none ↔
        ∀ sr ∈ matching_rules elem stylesheet, sr.2.declares p = false)
    ∧ (∀ v : Value, (specified_values elem stylesheet).get p = some v ↔
        ∃ (l₁ : List MatchedRule) (sr : MatchedRule) (l₂ : List MatchedRule),
          matching_rules elem stylesheet = l₁ ++ sr :: l₂
          ∧ sr.2.declares p = true
          ∧ Rule.lastDecl sr.2 p = some v
          ∧ (∀ sr' ∈ l₁, sr'.2.declares p = true → specLe sr'.1 sr.1 = true)
          ∧ (∀ sr' ∈ l₂, sr'.2.declares p = true → specLt sr'.1 sr.1 = true)) := by
  have key : (specified_values elem stylesheet).get p
      = (cascadeWinner p (matching_rules elem stylesheet)).map (fun sv => sv.2) := by
    unfold specified_values
    rw [rules_foldl_get]
    rw [lastDeclaring_sortBySpec]
    cases cascadeWinner p (matching_rules elem stylesheet) with
    | none => rfl
    | some sv => rfl
  constructor
  · rw [key]
    rw [Option.map_eq_none']
    exact cascadeWinner_none_iff p (matching_rules elem stylesheet)
  · intro v
    rw [key]
    rw [Option.map_eq_some']
    constructor
    · rintro ⟨sv, hw, hv⟩
      obtain ⟨l₁, sr, l₂, hL, h1, h2, h3, h4, h5⟩ :=
        cascadeWinner_decomposition p (matching_rules elem stylesheet) sv hw
      refine ⟨l₁, sr, l₂, hL, h2, by rw [h3, hv], ?_, ?_⟩
      · intro sr' hsr' hdec
        rw [h1]
        exact h4 sr' hsr' hdec
      · intro sr' hsr' hdec
        rw [h1]
        exact h5 sr' hsr' hdec
    · rintro ⟨l₁, sr, l₂, hL, hdec, hlast, h4, h5⟩
      refine ⟨(sr.1, v), ?_, rfl⟩
      rw [hL]
      exact cascadeWinner_of_decomposition p l₁ sr l₂ v hlast h4 h5

/-- C1 witness: with `#x { width: 50px }` before `div { width: 100px }` and
the element `<div id="x">`, the higher-specificity id rule wins even though
the tag rule comes later. -/
theorem c1_cascade_winner_witness :
    (specified_values exCascadeElem exCascadeSheet).get "width"
      = some (Value.Length 50 CssUnit.Px) :=
  ((c1_cascade_winner exCascadeElem exCascadeSheet "width").2 (Value.Length 50 CssUnit.Px)).mpr
    ⟨[], ((1, 0, 0), exRuleA), [((0, 0, 1), exRuleB)],
      by decide, by decide, by decide, by decide, by decide⟩
